import Mathlib

/-!
Verification development for the archived-transcript-server repository.

The Go sources are shallowly embedded: Go strings are Lean `String`s and the
byte-level operations of the Go standard library are modelled at character
level, which is faithful for the ASCII data this server processes (SRT
timestamps, ISO dates, identifiers).  Character classification tables
(`unicode.IsPunct`, `unicode.IsSpace`, `unicode.ToLower`) are embedded for the
ASCII range; code points outside ASCII are left unclassified/unchanged.
SQLite and the Go regexp engine are external components: the FTS5 MATCH
predicate and the compiled-regex match/count functions are taken as function
parameters of the query operations, while everything the repository itself
computes (patterns, filters, ordering, aggregation) is embedded concretely.
Functions that loop by re-scanning a shrinking string are written with an
explicit fuel argument (always called with enough fuel) so that they remain
structurally recursive and computable by the kernel.
-/


/-- Whitespace classification used by the Go standard library
(strings.Fields, strings.TrimSpace), restricted to the ASCII range of
unicode.IsSpace: space, tab, newline, carriage return, vertical tab, form
feed. -/
def goIsSpace (c : Char) : Bool :=
  c == ' ' || c == '\t' || c == '\n' || c == '\r' || c == '\x0b' || c == '\x0c'

/-- Lower-casing as performed by unicode.ToLower, restricted to ASCII:
uppercase letters are shifted into lowercase, every other character is
unchanged. -/
def goToLower (c : Char) : Char :=
  if 'A' ≤ c && c ≤ 'Z' then Char.ofNat (c.toNat + 32) else c

/-- Characters of the ASCII range that are in the Unicode punctuation
category P, i.e. for which unicode.IsPunct returns true.  (Dollar, plus,
angle brackets, equals, caret, backquote, pipe and tilde are Unicode
symbols, not punctuation, and are deliberately absent.) -/
def goPunctChars : List Char :=
  ['!', '"', '#', '%', '&', '\x27', '(', ')', '*', ',', '-', '.', '/',
   ':', ';', '?', '@', '[', '\\', ']', '_', '\x7b', '\x7d']

/-- Punctuation test of unicode.IsPunct, ASCII range. -/
def goIsPunct (c : Char) : Bool := goPunctChars.contains c

/-- Accumulator-based splitting of a character list into maximal runs of
non-whitespace characters; this is strings.Fields. -/
def goFieldsAux (acc : List Char) : List Char → List (List Char)
  | [] => if acc.isEmpty then [] else [acc.reverse]
  | c :: rest =>
    if goIsSpace c then
      if acc.isEmpty then goFieldsAux [] rest
      else acc.reverse :: goFieldsAux [] rest
    else goFieldsAux (c :: acc) rest

/-- strings.Fields: the whitespace-delimited words of a string. -/
def goFields (s : String) : List String :=
  (goFieldsAux [] s.toList).map List.asString

/-- strings.TrimSpace: remove leading and trailing whitespace. -/
def goTrimSpace (s : String) : String :=
  (((s.toList.dropWhile goIsSpace).reverse.dropWhile goIsSpace).reverse).asString

/-- strings.Join with a separator. -/
def goJoin (sep : String) : List String → String
  | [] => ""
  | [x] => x
  | x :: y :: rest => x ++ sep ++ goJoin sep (y :: rest)

/-- Fuel-driven worker for strings.Split with a non-empty separator: scan the
character list, cutting at every occurrence of the separator.  The fuel is
always instantiated with the length of the scanned list plus one, which is
sufficient for the scan to finish. -/
def goSplitAux (sep : List Char) : Nat → List Char → List Char → List (List Char)
  | 0, l, acc => [acc.reverse ++ l]
  | _ + 1, [], acc => [acc.reverse]
  | fuel + 1, c :: rest, acc =>
    if sep.isPrefixOf (c :: rest) then
      acc.reverse :: goSplitAux sep fuel (List.drop sep.length (c :: rest)) []
    else
      goSplitAux sep fuel rest (c :: acc)

/-- strings.Split with a non-empty separator. -/
def goSplit (s sep : String) : List String :=
  (goSplitAux sep.toList (s.toList.length + 1) s.toList []).map List.asString

/-- Fuel-driven worker for strings.ReplaceAll with a non-empty pattern. -/
def goReplaceAux (pat repl : List Char) : Nat → List Char → List Char
  | 0, l => l
  | _ + 1, [] => []
  | fuel + 1, c :: rest =>
    if pat.isPrefixOf (c :: rest) then
      repl ++ goReplaceAux pat repl fuel (List.drop pat.length (c :: rest))
    else
      c :: goReplaceAux pat repl fuel rest

/-- strings.ReplaceAll with a non-empty pattern. -/
def goReplaceAll (s pat repl : String) : String :=
  (goReplaceAux pat.toList repl.toList (s.toList.length + 1) s.toList).asString

/-- strings.SplitN with limit 3: at most the first two separator occurrences
cut, the remainder stays in one piece. -/
def goSplitN3 (s : String) (sep : String) : List String :=
  let ps := goSplit s sep
  if ps.length ≤ 3 then ps
  else [ps.getD 0 "", ps.getD 1 "", goJoin sep (ps.drop 2)]

/-- Character-wise ascending comparison on strings, comparing code points;
this models the byte-wise (memcmp) TEXT ordering SQLite uses in ORDER BY and
in range comparisons, which coincides with code-point order on UTF-8 data. -/
def strLeAux : List Char → List Char → Bool
  | [], _ => true
  | _ :: _, [] => false
  | a :: as, b :: bs =>
    if a.toNat < b.toNat then true
    else if b.toNat < a.toNat then false
    else strLeAux as bs

/-- SQLite TEXT ordering on strings (see strLeAux). -/
def strLe (s t : String) : Bool := strLeAux s.toList t.toList

/-- normalizeText from the repository: replace every punctuation character
with a space, lower-case the rest, then collapse whitespace runs by
re-joining the fields with single spaces (which also trims both ends). -/
def normalizeText (s : String) : String :=
  goJoin " " (goFields ((s.toList.map (fun c => if goIsPunct c then ' ' else goToLower c)).asString))

/-- TranscriptLine from types.go: ID is set only on retrieval, the parser
leaves it empty. -/
structure TranscriptLine where
  ID : String
  Start : String
  Text : String
deriving DecidableEq, Repr

/-- Body of the parsing loop of parseSRTForLines, for one block: split into
at most three sub-lines; drop the block if fewer than three; drop it if the
timestamp line has fewer than 8 characters; take the first 8 characters of
the timestamp line as start time; join the text sub-lines with spaces and
trim; drop the block if the text is then empty. -/
def processBlock (block : String) : Option TranscriptLine :=
  let parts := goSplitN3 block "\n"
  if parts.length < 3 then none
  else if (parts.getD 1 "").length < 8 then none
  else
    let startTime := ((parts.getD 1 "").toList.take 8).asString
    let text := goTrimSpace (goReplaceAll (parts.getD 2 "") "\n" " ")
    if text == "" then none
    else some { ID := "", Start := startTime, Text := text }

/-- parseSRTForLines: normalize line endings, trim, split into blocks on
blank lines, and keep the well-formed blocks. -/
def parseSRTForLines (srtContent : String) : List TranscriptLine :=
  let s := goTrimSpace (goReplaceAll srtContent "\r\n" "\n")
  (goSplit s "\n\n").filterMap processBlock

/-- TranscriptInput from types.go: the POST /transcript payload. -/
structure TranscriptInput where
  Streamer : String
  Date : String
  StreamType : String
  StreamTitle : String
  ID : String
  SrtTranscript : String
deriving DecidableEq, Repr

/-- TranscriptOutput from types.go: the GET /transcript/:id response. -/
structure TranscriptOutput where
  Streamer : String
  Date : String
  StreamType : String
  StreamTitle : String
  ID : String
  TranscriptLines : List TranscriptLine
deriving DecidableEq, Repr

/-- One row of the transcripts table (schema in InitDB). -/
structure TranscriptRow where
  id : String
  streamer : String
  date : String
  title : String
  streamType : String
deriving DecidableEq, Repr

/-- One row of the transcript_lines table (schema in InitDB).  The FTS index
entry over clean is kept in sync by triggers, so it needs no separate
representation: a line is indexed exactly while its row exists. -/
structure LineRow where
  tid : String
  start : String
  text : String
  clean : String
deriving DecidableEq, Repr

/-- The SQLite database state: the transcripts table and the
transcript_lines table, each as a list of rows in insertion (rowid) order. -/
structure DB where
  transcripts : List TranscriptRow
  lines : List LineRow
deriving DecidableEq, Repr

/-- Line row written by insertTranscript for one parsed line: owned by the
inserted transcript, with clean_text derived by normalizeText in the same
transaction. -/
def lineOf (data : TranscriptInput) (line : TranscriptLine) : LineRow :=
  { tid := data.ID, start := line.Start, text := line.Text,
    clean := normalizeText line.Text }

/-- insertTranscript: in one transaction, delete any transcript with the
same id (the ON DELETE CASCADE removes its lines), insert the new metadata
row, then insert one line row per parsed SRT line, with clean_text derived
by normalizeText.  Zero parsed lines still commit the metadata. -/
def insertTranscript (db : DB) (data : TranscriptInput) : DB :=
  let ts := db.transcripts.filter (fun t => !(t.id == data.ID))
  let ls := db.lines.filter (fun l => !(l.tid == data.ID))
  let newLines := (parseSRTForLines data.SrtTranscript).map (lineOf data)
  let row : TranscriptRow :=
    { id := data.ID, streamer := data.Streamer, date := data.Date,
      title := data.StreamTitle, streamType := data.StreamType }
  { transcripts := ts ++ [row], lines := ls ++ newLines }

/-- Row-order ascending comparison used to model ORDER BY start_time on the
transcript_lines table. -/
def lineStartLe (a b : LineRow) : Prop := strLe a.start b.start = true

instance : DecidableRel lineStartLe := fun _ _ => instDecidableEqBool _ _

/-- The scan loop of retrieveTranscript: each returned line receives the
running counter (formatted in decimal) as its id. -/
def numberLines : Nat → List LineRow → List TranscriptLine
  | _, [] => []
  | n, l :: ls => { ID := toString n, Start := l.start, Text := l.text } :: numberLines (n + 1) ls

/-- retrieveTranscript: look up the metadata row by id (none models the
sql.ErrNoRows not-found failure), then return the transcript lines ordered
by start_time, numbering them 0, 1, 2, ... in that order. -/
def retrieveTranscript (db : DB) (id : String) : Option TranscriptOutput :=
  match db.transcripts.find? (fun t => t.id == id) with
  | none => none
  | some t =>
    let ls := List.insertionSort lineStartLe (db.lines.filter (fun l => l.tid == id))
    some { Streamer := t.streamer, Date := t.date, StreamType := t.streamType,
           StreamTitle := t.title, ID := t.id, TranscriptLines := numberLines 0 ls }

/-- QueryData from types.go: the decoded search parameters. -/
structure QueryData where
  SearchText : String
  MatchWholeWord : Bool
  Streamer : String
  StreamTitle : String
  FromDate : String
  ToDate : String
  StreamTypes : List String
  AuthorizedChannel : String
deriving DecidableEq, Repr

/-- buildFTSQuery: wrap the normalized search text in double quotes to form
an FTS5 phrase query. -/
def buildFTSQuery (searchText : String) : String :=
  "\"" ++ normalizeText searchText ++ "\""

/-- Characters regexp.QuoteMeta escapes with a backslash. -/
def goRegexSpecial : List Char :=
  ['\\', '.', '+', '*', '?', '(', ')', '|', '[', ']', '\x7b', '\x7d', '^', '$']

/-- regexp.QuoteMeta: escape every regex metacharacter. -/
def goQuoteMeta (s : String) : String :=
  (s.toList.flatMap (fun c => if goRegexSpecial.contains c then ['\\', c] else [c])).asString

/-- Pattern built by getRegex (the regex matcher cache): normalize the
search text, escape it, and add word-boundary anchors when whole-word
matching is requested. -/
def getRegexPattern (searchText : String) (matchWholeWord : Bool) : String :=
  let reStr := goQuoteMeta (normalizeText searchText)
  if matchWholeWord then "\\b" ++ reStr ++ "\\b" else reStr

/-- Pattern used by queryTranscripts for the whole-word second-stage filter
inside the context query: a case-insensitivity flag, then the raw (not
normalized) search text escaped, between word-boundary anchors. -/
def wholeWordContextPattern (searchText : String) : String :=
  "(?i)\\b" ++ goQuoteMeta searchText ++ "\\b"

/-- ASCII lower-casing of a whole string, as SQLite LIKE applies it. -/
def asciiLower (s : String) : String := (s.toList.map goToLower).asString

/-- Containment of one character list in another. -/
def listContainsSub : List Char → List Char → Bool
  | l, p =>
    match l with
    | [] => p.isEmpty
    | _ :: t => p.isPrefixOf l || listContainsSub t p

/-- SQLite LIKE with wildcards on both sides: case-insensitive (ASCII)
substring containment. -/
def likeContains (s sub : String) : Bool :=
  listContainsSub (asciiLower s).toList (asciiLower sub).toList

/-- Structured filters of buildFilterQuery, one conjunct per optional field:
exact streamer equality, case-insensitive title substring, inclusive date
bounds compared as TEXT, and stream-type set membership (IN list,
OR-combined). -/
def docFilters (q : QueryData) (t : TranscriptRow) : Bool :=
  (q.Streamer == "" || t.streamer == q.Streamer) &&
  (q.StreamTitle == "" || likeContains t.title q.StreamTitle) &&
  (q.FromDate == "" || strLe q.FromDate t.date) &&
  (q.ToDate == "" || strLe t.date q.ToDate) &&
  (q.StreamTypes.isEmpty || q.StreamTypes.contains t.streamType)

/-- Modelled from the spec: the QueryData variant of buildFilterQuery that
the query operations call is not among the provided sources (only the older
url.Values variant and the callers are), so its members carve-out is taken
from the spec: a transcript of the restricted "Members" stream type is
visible only when the query carries an authorization scope and the
transcript belongs to that authorized channel; transcripts of every other
stream type are unaffected. -/
def membersOk (q : QueryData) (t : TranscriptRow) : Bool :=
  if t.streamType == "Members" then
    !(q.AuthorizedChannel == "") && t.streamer == q.AuthorizedChannel
  else true

/-- WHERE clause built by buildFilterQuery as a predicate on a transcripts
row: the structured filters of the provided buildFilterQuery source plus the
spec-modelled members carve-out (see membersOk). -/
def buildFilterQuery (q : QueryData) (t : TranscriptRow) : Bool :=
  docFilters q t && membersOk q t

/-- SearchContext from types.go: one matching line in search results. -/
structure SearchContext where
  StartTime : String
  Line : String
deriving DecidableEq, Repr

/-- TranscriptSearch from types.go: one document in search results. -/
structure TranscriptSearch where
  ID : String
  Streamer : String
  Date : String
  StreamType : String
  Title : String
  Contexts : List SearchContext
deriving DecidableEq, Repr

/-- GraphDataPoint from types.go: one point of a time or date series. -/
structure GraphDataPoint where
  X : String
  Y : Nat
deriving DecidableEq, Repr

/-- Date-descending comparison used to model ORDER BY t.date DESC. -/
def dateDescLe (a b : TranscriptRow) : Prop := strLe b.date a.date = true

instance : DecidableRel dateDescLe := fun _ _ => instDecidableEqBool _ _

/-- Context query of queryTranscripts for one matched transcript: the lines
of that transcript whose indexed clean text satisfies the FTS5 MATCH
predicate (and, when whole-word matching is on, whose original text
satisfies the whole-word context pattern under the regexp function), ranked
by start_time ascending with only the first 20 kept.  The MATCH predicate
and the regexp function live in SQLite, so they are parameters: fts receives
the FTS query string built by buildFTSQuery, regexpFn the pattern string. -/
def contextLines (fts regexpFn : String → String → Bool) (db : DB) (q : QueryData)
    (tid : String) : List SearchContext :=
  ((List.insertionSort lineStartLe (db.lines.filter fun l =>
      l.tid == tid && fts (buildFTSQuery q.SearchText) l.clean &&
      (!q.MatchWholeWord || regexpFn (wholeWordContextPattern q.SearchText) l.text))).take 20).map
    fun l => { StartTime := l.start, Line := l.text }

/-- queryTranscripts: filter the transcripts with the WHERE clause of
buildFilterQuery; when a search phrase is given, keep only transcripts with
at least one FTS-matching line (the JOIN plus GROUP BY t.id); order by date
descending; attach the ranked context lines (empty when no phrase was
given); and, for whole-word searches, drop transcripts whose context list
came back empty. -/
def queryTranscripts (fts regexpFn : String → String → Bool) (db : DB)
    (q : QueryData) : List TranscriptSearch :=
  let base := db.transcripts.filter (buildFilterQuery q)
  let docs := if q.SearchText == "" then base
    else base.filter fun t =>
      db.lines.any fun l => l.tid == t.id && fts (buildFTSQuery q.SearchText) l.clean
  let ordered := List.insertionSort dateDescLe docs
  let results := ordered.map fun t =>
    ({ ID := t.id, Streamer := t.streamer, Date := t.date, StreamType := t.streamType,
       Title := t.title,
       Contexts := if q.SearchText == "" then []
         else contextLines fts regexpFn db q t.id } : TranscriptSearch)
  if q.MatchWholeWord && !(q.SearchText == "") then
    results.filter fun r => !r.Contexts.isEmpty
  else results

/-- Update of the Go map entry timeCounts[key] += c on an association list:
add to the existing entry for the key, or append a new entry. -/
def bump : List (String × Nat) → String → Nat → List (String × Nat)
  | [], k, c => [(k, c)]
  | (k0, c0) :: rest, k, c =>
    if k0 == k then (k0, c0 + c) :: rest else (k0, c0) :: bump rest k c

/-- One iteration of the aggregation loops of querySingleGraph and
queryAllGraphs: count the matches in the clean text of the row and, when
positive, add the count to the entry of the row's key (a start_time or a
date). -/
def graphStep (count : String → Nat) (al : List (String × Nat))
    (row : String × String) : List (String × Nat) :=
  let c := count row.2
  if 0 < c then bump al row.1 c else al

/-- The whole aggregation loop over the scanned (key, clean_text) rows. -/
def collectCounts (count : String → Nat) (rows : List (String × String)) :
    List (String × Nat) :=
  rows.foldl (graphStep count) []

/-- Ascending comparison on graph points used to model the final
sort.Slice by X. -/
def pointLe (a b : GraphDataPoint) : Prop := strLe a.X b.X = true

instance : DecidableRel pointLe := fun _ _ => instDecidableEqBool _ _

/-- querySingleGraph: scan the FTS-matching lines of one transcript in
start_time order, count the matches of the cached regex (whose pattern is
getRegexPattern of the search text and the whole-word flag) inside each
clean text with reCount, aggregate the positive counts per start_time, and
sort the resulting points by X ascending.  reCount models
regexp.FindAllStringIndex of the compiled pattern (first argument) applied
to a text (second argument), returning the number of matches. -/
def querySingleGraph (fts : String → String → Bool) (reCount : String → String → Nat)
    (db : DB) (id : String) (q : QueryData) : List GraphDataPoint :=
  let pat := getRegexPattern q.SearchText q.MatchWholeWord
  let rows := (List.insertionSort lineStartLe (db.lines.filter fun l =>
      l.tid == id && fts (buildFTSQuery q.SearchText) l.clean)).map fun l => (l.start, l.clean)
  List.insertionSort pointLe
    ((collectCounts (reCount pat) rows).map fun p => { X := p.1, Y := p.2 })

/-- queryAllGraphs: same aggregation as querySingleGraph, but the scanned
rows are the join of the buildFilterQuery-filtered transcripts with their
FTS-matching lines, keyed by the transcript date instead of the line
start_time. -/
def queryAllGraphs (fts : String → String → Bool) (reCount : String → String → Nat)
    (db : DB) (q : QueryData) : List GraphDataPoint :=
  let pat := getRegexPattern q.SearchText q.MatchWholeWord
  let rows := (db.transcripts.filter (buildFilterQuery q)).flatMap fun t =>
    (db.lines.filter fun l =>
      l.tid == t.id && fts (buildFTSQuery q.SearchText) l.clean).map fun l => (t.date, l.clean)
  List.insertionSort pointLe
    ((collectCounts (reCount pat) rows).map fun p => { X := p.1, Y := p.2 })

/-- Match-locating loop of createSnippet: the first index at which the clean
search words occur contiguously in the clean words, with the same redundant
in-bounds test as the source. -/
def isMatchAt (cleanWords cleanSearchWords : List String) (i : Nat) : Bool :=
  (List.range cleanSearchWords.length).all fun j =>
    decide (i + j < cleanWords.length) && (cleanWords.getD (i + j) "" == cleanSearchWords.getD j "")

/-- Outer loop of the match search: i ranges from 0 to
cleanWords.length - cleanSearchWords.length inclusive, first hit wins. -/
def findMatchIndex (cleanWords cleanSearchWords : List String) : Option Nat :=
  (List.range (cleanWords.length + 1 - cleanSearchWords.length)).find?
    (isMatchAt cleanWords cleanSearchWords)

/-- Window computation of createSnippet: ideal bounds are wordBuffer words
around the estimated match span, clamped into the word list; if the clamped
window is empty or inverted, fall back to the match span alone, clamped; if
still empty or inverted, no window (the caller returns the original text).
Arithmetic is over Int because wordBuffer may be negative. -/
def snippetBounds (len i matchLen : Nat) (wordBuffer : Int) : Option (Nat × Nat) :=
  let idealStart : Int := (i : Int) - wordBuffer
  let idealEnd : Int := (i : Int) + (matchLen : Int) + wordBuffer
  let startClamped : Int := max 0 idealStart
  let endClamped : Int := min (len : Int) idealEnd
  if startClamped ≥ endClamped then
    let s2 : Int := max 0 (i : Int)
    let e2 : Int := min (len : Int) ((i : Int) + (matchLen : Int))
    if s2 ≥ e2 then none else some (s2.toNat, e2.toNat)
  else some (startClamped.toNat, endClamped.toNat)

/-- createSnippet.  The result is an Option: none marks the one input region
where the Go function panics instead of returning — the not-found fallback
slices originalWords[:wordBuffer*4], which is a runtime bounds violation
when wordBuffer is negative.  Every other path returns some string. -/
def createSnippet (originalText cleanText searchText : String) (wordBuffer : Int) :
    Option String :=
  let originalWords := goFields originalText
  let cleanWords := goFields cleanText
  let cleanSearch := normalizeText searchText
  let cleanSearchWords := goFields cleanSearch
  if cleanSearchWords.length == 0 || originalWords.length == 0 then some originalText
  else
    match findMatchIndex cleanWords cleanSearchWords with
    | none =>
      let limit : Int := wordBuffer * 4
      if (originalWords.length : Int) > limit then
        if limit < 0 then none
        else some (goJoin " " (originalWords.take limit.toNat) ++ "___")
      else some originalText
    | some i =>
      match snippetBounds originalWords.length i cleanSearchWords.length wordBuffer with
      | none => some originalText
      | some (s, e) =>
        let snippetWords := (originalWords.drop s).take (e - s)
        let pre := if 0 < s then "___ " else ""
        let suf := if e < originalWords.length then " ___" else ""
        some (pre ++ goJoin " " snippetWords ++ suf)

/-- Example query scoped to the channel Chan, with no other filters. -/
def scopedQuery : QueryData :=
  { SearchText := "", MatchWholeWord := false, Streamer := "", StreamTitle := "",
    FromDate := "", ToDate := "", StreamTypes := [], AuthorizedChannel := "Chan" }

/-- Example transcripts-table row of the restricted Members stream type
owned by Chan. -/
def membersRow : TranscriptRow :=
  { id := "m1", streamer := "Chan", date := "2023-01-01", title := "T",
    streamType := "Members" }

/-- Ascending start-time comparison on parsed transcript lines, the order
the spec uses for the retrieved line list. -/
def tlStartLe (a b : TranscriptLine) : Prop := strLe a.Start b.Start = true

instance : DecidableRel tlStartLe := fun _ _ => instDecidableEqBool _ _

/-- Document used by the concrete witnesses: two lines arriving in reverse
start-time order. -/
def sampleDoc : TranscriptInput :=
  { Streamer := "StreamerA", Date := "2023-01-01", StreamType := "Stream",
    StreamTitle := "Title", ID := "v1",
    SrtTranscript := "1\n00:00:05,000 --> 00:00:06,000\nworld\n\n2\n00:00:01,000 --> 00:00:02,000\nhello" }

/-- Database holding exactly sampleDoc. -/
def sampleDB : DB := insertTranscript { transcripts := [], lines := [] } sampleDoc

/-- Retrieval result for sampleDoc: lines re-sorted ascending and numbered
0, 1. -/
def sampleOut : TranscriptOutput :=
  { Streamer := "StreamerA", Date := "2023-01-01", StreamType := "Stream",
    StreamTitle := "Title", ID := "v1",
    TranscriptLines := [{ ID := "0", Start := "00:00:01", Text := "hello" },
                        { ID := "1", Start := "00:00:05", Text := "world" }] }

/-- SQLite collaborators instantiated for witnesses: a MATCH predicate and
a regexp function that accept everything. -/
def alwaysTrue : String → String → Bool := fun _ _ => true

/-- Query with the phrase x and no other filters. -/
def searchQuery : QueryData :=
  { SearchText := "x", MatchWholeWord := false, Streamer := "", StreamTitle := "",
    FromDate := "", ToDate := "", StreamTypes := [], AuthorizedChannel := "" }

/-- Search result of searchQuery on sampleDB under alwaysTrue collaborators. -/
def sampleSearchResult : TranscriptSearch :=
  { ID := "v1", Streamer := "StreamerA", Date := "2023-01-01", StreamType := "Stream",
    Title := "Title",
    Contexts := [{ StartTime := "00:00:01", Line := "hello" },
                 { StartTime := "00:00:05", Line := "world" }] }

/-- Lookup in the association-list model of the Go count map, defaulting to
0 for absent keys. -/
def lookupD : List (String × Nat) → String → Nat
  | [], _ => 0
  | (k0, c0) :: rest, k => if k0 == k then c0 else lookupD rest k

/-- Keys of the association-list model of the Go count map. -/
def keysOf (al : List (String × Nat)) : List String := al.map Prod.fst

/-- Total count contributed by the rows carrying a given key. -/
def rowTotal (count : String → Nat) (rows : List (String × String)) (k : String) : Nat :=
  ((rows.filter fun r => r.1 == k).map fun r => count r.2).sum

/-- Regex count collaborator for witnesses: every text counts as one
match. -/
def countOne : String → String → Nat := fun _ _ => 1

example : parseSRTForLines "1\n00:00:01,000 --> 00:00:04,000\nHello world\n\n2\n00:00:05,000 --> 00:00:08,000\nNext line" =
    [{ ID := "", Start := "00:00:01", Text := "Hello world" },
     { ID := "", Start := "00:00:05", Text := "Next line" }] := by decide

example : parseSRTForLines "1\n00:00:01,000 --> 00:00:04,000\nHello\nworld\n\n" =
    [{ ID := "", Start := "00:00:01", Text := "Hello world" }] := by decide

example : parseSRTForLines "" = [] := by decide

example : parseSRTForLines "1\nBAD_TIMESTAMP --> 00:00:04,000\nHello\n\n" =
    [{ ID := "", Start := "BAD_TIME", Text := "Hello" }] := by decide

example : normalizeText "Mixed CASE and Punc.!" = "mixed case and punc" := by decide

example : normalizeText "  Spaces  " = "spaces" := by decide

example : normalizeText "New\nLines" = "new lines" := by decide

example : createSnippet "This is a test of the emergency broadcast system."
    "this is a test of the emergency broadcast system" "emergency" 1 =
    some "___ the emergency broadcast ___" := by decide

example : createSnippet "This is a test of the emergency broadcast system."
    "this is a test of the emergency broadcast system" "This is" 2 =
    some "This is a test ___" := by decide

example : createSnippet "This is a test of the emergency broadcast system."
    "this is a test of the emergency broadcast system" "system" 2 =
    some "___ emergency broadcast system." := by decide

example : createSnippet "This is a test of the emergency broadcast system."
    "this is a test of the emergency broadcast system" "test" 100 =
    some "This is a test of the emergency broadcast system." := by decide

example : createSnippet "This is a test of the emergency broadcast system."
    "this is a test of the emergency broadcast system" "potato" 2 =
    some "This is a test of the emergency broadcast___" := by decide

example : createSnippet "This is a test of the emergency broadcast system."
    "this is a test of the emergency broadcast system" "" 5 =
    some "This is a test of the emergency broadcast system." := by decide

example : createSnippet "This is a test of the emergency broadcast system."
    "this is a test of the emergency broadcast system" "test" (-5) =
    some "___ test ___" := by decide

example : createSnippet "hello,world" "hello world" "world" 1 = some "hello,world" := by decide

example : createSnippet "hello,world" "hello world" "world" 0 = some "hello,world" := by decide

/-- The claimed pattern equality of the context query and the regex cache
fails already on a lower-case, punctuation-free phrase: the context query
prepends a case-insensitivity flag that the cache pattern does not have
(and it escapes the raw phrase, not the normalized one). -/
theorem c3_counterexample :
    wholeWordContextPattern "hello" ≠ getRegexPattern "hello" true := by decide

/-- C3 (amended): the whole-word second-stage filter of the document search
uses the pattern (?i)\b QuoteMeta(rawPhrase) \b; this equals the §4.4
whole-word cache matcher with a case-insensitivity flag prepended exactly
when the phrase is already normalized (normalization is skipped on the raw
phrase in the context query). -/
theorem c3_context_pattern (s : String) (h : normalizeText s = s) :
    wholeWordContextPattern s = "(?i)" ++ getRegexPattern s true := by
  unfold wholeWordContextPattern getRegexPattern
  rw [h]
  rw [show ("(?i)\\b" : String) = "(?i)" ++ "\\b" from rfl]
  simp only [if_pos, String.append_assoc]

/-- Witness for c3_context_pattern at the already-normalized phrase
hello. -/
theorem c3_context_pattern_witness :
    wholeWordContextPattern "hello" = "(?i)" ++ getRegexPattern "hello" true :=
  c3_context_pattern "hello" (by decide)

/-- The claimed discard rule fails in both directions on concrete
documents.  First document: the time-of-day component before the arrow is
only 5 characters (the spec-claimed discard condition holds), yet the block
is kept, because the code tests the length of the whole timestamp line; the
stored start time is the garbled first 8 characters of that line.  Second
document: a block with three sub-lines and a well-formed timestamp (neither
claimed condition holds) is nevertheless dropped, because its text trims to
empty. -/
theorem c6_counterexample :
    parseSRTForLines "1\n0:0:1 --> 00:00:04,000\nhello" =
      [{ ID := "", Start := "0:0:1 --", Text := "hello" }] ∧
    parseSRTForLines
        "1\n00:00:01,000 --> 00:00:02,000\n \n\n2\n00:00:03,000 --> 00:00:04,000\nok" =
      [{ ID := "", Start := "00:00:03", Text := "ok" }] := by
  constructor <;> decide

/-- C6 (amended): a block is silently discarded exactly when it has fewer
than 3 sub-lines, or its entire timestamp line (not merely the part before
the arrow) is shorter than 8 characters, or its text joins and trims to the
empty string; parsing is total, so one malformed block never fails the
whole document. -/
theorem c6_block_discard (block : String) :
    processBlock block = none ↔
      ((goSplitN3 block "\n").length < 3 ∨
       ((goSplitN3 block "\n").getD 1 "").length < 8 ∨
       goTrimSpace (goReplaceAll ((goSplitN3 block "\n").getD 2 "") "\n" " ") = "") := by
  simp only [processBlock]
  by_cases h1 : (goSplitN3 block "\n").length < 3
  · rw [if_pos h1]
    exact iff_of_true rfl (Or.inl h1)
  · rw [if_neg h1]
    by_cases h2 : ((goSplitN3 block "\n").getD 1 "").length < 8
    · rw [if_pos h2]
      exact iff_of_true rfl (Or.inr (Or.inl h2))
    · rw [if_neg h2]
      by_cases h3 :
          goTrimSpace (goReplaceAll ((goSplitN3 block "\n").getD 2 "") "\n" " ") = ""
      · rw [if_pos (beq_iff_eq.mpr h3)]
        exact iff_of_true rfl (Or.inr (Or.inr h3))
      · rw [if_neg (by simpa using h3)]
        refine iff_of_false (by simp) ?_
        rintro (h | h | h)
        · exact h1 h
        · exact h2 h
        · exact h3 h

/-- The claimed ellipsis rule fails at a window that needed no clamping at
all: for the phrase c in the five-word text, the ideal window is (1, 4),
already inside the bounds, so snippetBounds returns it unclamped — yet the
excerpt carries both ellipsis markers, because the code attaches them
whenever words of the original text lie outside the window, not when
clamping occurred. -/
theorem c7_counterexample :
    createSnippet "a b c d e" "a b c d e" "c" 1 = some "___ b c d ___" ∧
    snippetBounds 5 2 1 1 = some (1, 4) := by
  constructor <;> decide

/-- C7 (amended): on the found-phrase path, the excerpt is the joined
window with a leading marker exactly when the window starts after the first
original word (0 < s) and a trailing marker exactly when it ends before the
last one (e < word count) — i.e. the markers signal trimmed words relative
to the whole original text, not clamping of the ideal window. -/
theorem c7_snippet_ellipsis (originalText cleanText searchText : String) (wordBuffer : Int)
    (i s e : Nat)
    (hsw : ¬(goFields (normalizeText searchText)).length = 0)
    (how : ¬(goFields originalText).length = 0)
    (hfound : findMatchIndex (goFields cleanText) (goFields (normalizeText searchText)) = some i)
    (hbounds : snippetBounds (goFields originalText).length i
        (goFields (normalizeText searchText)).length wordBuffer = some (s, e)) :
    createSnippet originalText cleanText searchText wordBuffer =
      some ((if 0 < s then "___ " else "") ++
        goJoin " " (((goFields originalText).drop s).take (e - s)) ++
        (if e < (goFields originalText).length then " ___" else "")) := by
  simp only [createSnippet, hfound, hbounds]
  rw [if_neg (by simp [hsw, how])]

/-- Witness for c7_snippet_ellipsis: the phrase c in a five-word text with
word buffer 1 excerpts words 1 to 3 with both markers. -/
theorem c7_snippet_ellipsis_witness :
    createSnippet "a b c d e" "a b c d e" "c" 1 =
      some ((if 0 < 1 then "___ " else "") ++
        goJoin " " (((goFields "a b c d e").drop 1).take (4 - 1)) ++
        (if 4 < (goFields "a b c d e").length then " ___" else "")) :=
  c7_snippet_ellipsis "a b c d e" "a b c d e" "c" 1 2 1 4
    (by decide) (by decide) (by decide) (by decide)

/-- The totality claim fails: with a negative word buffer and a phrase that
does not occur in the clean text, the fallback in the Go source slices
originalWords[:wordBuffer*4] with a negative bound, which panics at run
time; the model returns none exactly on that path. -/
theorem c8_negative_buffer_panic :
    createSnippet "hello" "hello" "xyz" (-1) = none := by decide

/-- C2: for a query carrying an authorization scope, the document filter
admits a transcript of the restricted Members stream type precisely when
the structured filters admit it and its streamer is the authorized channel,
while a transcript of any other stream type is filtered exactly as it would
be with the scope removed. -/
theorem c2_members_carveout (q : QueryData) (t : TranscriptRow)
    (hq : q.AuthorizedChannel ≠ "") :
    (t.streamType = "Members" →
      (buildFilterQuery q t = true ↔
        (docFilters q t = true ∧ t.streamer = q.AuthorizedChannel))) ∧
    (t.streamType ≠ "Members" →
      buildFilterQuery q t = buildFilterQuery { q with AuthorizedChannel := "" } t) := by
  constructor
  · intro hm
    simp [buildFilterQuery, membersOk, hm, hq]
  · intro hm
    simp [buildFilterQuery, membersOk, docFilters, hm]

/-- Witness for c2_members_carveout: a concrete Members transcript of
channel Chan under a query scoped to Chan. -/
theorem c2_members_carveout_witness :
    buildFilterQuery scopedQuery membersRow = true ↔
      (docFilters scopedQuery membersRow = true ∧
        membersRow.streamer = scopedQuery.AuthorizedChannel) :=
  (c2_members_carveout scopedQuery membersRow (by decide)).1 (by decide)

theorem find?_append_singleton {α : Type} (p : α → Bool) (l : List α) (a : α)
    (hl : ∀ x ∈ l, p x = false) (ha : p a = true) :
    (l ++ [a]).find? p = some a := by
  induction l with
  | nil => simp [List.find?_cons, ha]
  | cons x xs ih =>
    have hx := hl x (by simp)
    simpa [List.find?_cons, hx] using ih fun y hy => hl y (by simp [hy])

theorem filter_not_filter {α : Type} (p : α → Bool) (l : List α) :
    (l.filter fun x => !(p x)).filter p = [] := by
  induction l with
  | nil => rfl
  | cons x xs ih => cases h : p x <;> simp [List.filter_cons, h, ih]

theorem numberLines_map_proj : ∀ (n : Nat) (ls : List LineRow),
    (numberLines n ls).map (fun l => (l.Start, l.Text)) =
      ls.map (fun l => (l.start, l.text))
  | _, [] => rfl
  | n, l :: ls => by simp [numberLines, numberLines_map_proj (n + 1) ls]

theorem orderedInsert_lineOf (d : TranscriptInput) (a : TranscriptLine) :
    ∀ xs : List TranscriptLine,
      List.orderedInsert lineStartLe (lineOf d a) (xs.map (lineOf d)) =
        (List.orderedInsert tlStartLe a xs).map (lineOf d)
  | [] => rfl
  | b :: bs => by
    simp only [List.map_cons, List.orderedInsert, lineStartLe, tlStartLe, lineOf]
    by_cases h : strLe a.Start b.Start = true
    · rw [if_pos h, if_pos h]
      simp [lineOf]
    · rw [if_neg h, if_neg h, List.map_cons]
      have := orderedInsert_lineOf d a bs
      simp only [lineStartLe, tlStartLe, lineOf] at this
      rw [this]
      simp [lineOf]

theorem insertionSort_lineOf (d : TranscriptInput) :
    ∀ xs : List TranscriptLine,
      List.insertionSort lineStartLe (xs.map (lineOf d)) =
        (List.insertionSort tlStartLe xs).map (lineOf d)
  | [] => rfl
  | a :: xs => by
    simp only [List.map_cons, List.insertionSort, insertionSort_lineOf d xs]
    exact orderedInsert_lineOf d a (List.insertionSort tlStartLe xs)

/-- C1: upserting a document and immediately retrieving it by the same id
succeeds and returns the document's own metadata, and the retrieved
(start_time, text) line sequence is exactly the parse of the raw SRT text
sorted by start_time ascending. -/
theorem c1_upsert_retrieve_roundtrip (db : DB) (d : TranscriptInput) :
    ∃ out : TranscriptOutput,
      retrieveTranscript (insertTranscript db d) d.ID = some out ∧
      out.Streamer = d.Streamer ∧ out.Date = d.Date ∧ out.StreamType = d.StreamType ∧
      out.StreamTitle = d.StreamTitle ∧ out.ID = d.ID ∧
      out.TranscriptLines.map (fun l => (l.Start, l.Text)) =
        (List.insertionSort tlStartLe (parseSRTForLines d.SrtTranscript)).map
          (fun l => (l.Start, l.Text)) := by
  have hfind : (insertTranscript db d).transcripts.find? (fun t => t.id == d.ID) =
      some { id := d.ID, streamer := d.Streamer, date := d.Date,
             title := d.StreamTitle, streamType := d.StreamType } := by
    simp only [insertTranscript]
    exact find?_append_singleton _ _ _
      (fun x hx => by
        have := (List.mem_filter.mp hx).2
        simpa using this)
      (by simp)
  have hlines : (insertTranscript db d).lines.filter (fun l => l.tid == d.ID) =
      (parseSRTForLines d.SrtTranscript).map (lineOf d) := by
    simp only [insertTranscript]
    rw [List.filter_append, filter_not_filter]
    rw [List.nil_append, List.filter_eq_self]
    intro a ha
    obtain ⟨line, _, rfl⟩ := List.mem_map.mp ha
    simp [lineOf]
  unfold retrieveTranscript
  rw [hfind, hlines]
  refine ⟨_, rfl, rfl, rfl, rfl, rfl, rfl, ?_⟩
  simp only [insertionSort_lineOf d, numberLines_map_proj, List.map_map]
  rfl

theorem numberLines_get_ID : ∀ (ls : List LineRow) (n i : Nat)
    (h : i < (numberLines n ls).length),
    ((numberLines n ls).get ⟨i, h⟩).ID = toString (n + i)
  | [], _, i, h => by simp [numberLines] at h
  | l :: ls, n, 0, _ => by simp [numberLines]
  | l :: ls, n, i + 1, h => by
    simp only [numberLines, List.get_cons_succ]
    rw [numberLines_get_ID ls (n + 1) i (by simpa [numberLines] using h)]
    congr 1
    omega

/-- C9: every retrieved transcript line carries as its id the decimal
rendering of its zero-based position in the start_time-ascending line
ordering of that retrieval; ids are recomputed from the counter on every
retrieval, never read from the store. -/
theorem c9_retrieval_line_ids (db : DB) (id : String) (out : TranscriptOutput)
    (h : retrieveTranscript db id = some out) (i : Nat)
    (hi : i < out.TranscriptLines.length) :
    (out.TranscriptLines.get ⟨i, hi⟩).ID = toString i := by
  unfold retrieveTranscript at h
  cases hf : db.transcripts.find? (fun t => t.id == id) with
  | none => rw [hf] at h; exact absurd h (by simp)
  | some t =>
    rw [hf] at h
    have hout := Option.some.inj h
    subst hout
    rw [numberLines_get_ID]
    congr 1
    omega

/-- Witness for c9_retrieval_line_ids: the second line of the retrieved
sample transcript has id 1. -/
theorem c9_retrieval_line_ids_witness :
    (sampleOut.TranscriptLines.get ⟨1, by decide⟩).ID = toString 1 :=
  c9_retrieval_line_ids sampleDB "v1" sampleOut (by decide) 1 (by decide)

theorem strLeAux_total : ∀ as bs : List Char, strLeAux as bs = true ∨ strLeAux bs as = true
  | [], _ => Or.inl rfl
  | _ :: _, [] => Or.inr rfl
  | a :: as, b :: bs => by
    simp only [strLeAux]
    by_cases hab : a.toNat < b.toNat
    · left; simp [hab]
    · by_cases hba : b.toNat < a.toNat
      · right; simp [hba]
      · cases strLeAux_total as bs with
        | inl h => left; simp [hab, hba, h]
        | inr h => right; simp [hab, hba, h]

theorem strLeAux_trans : ∀ as bs cs : List Char,
    strLeAux as bs = true → strLeAux bs cs = true → strLeAux as cs = true
  | [], _, _, _, _ => rfl
  | _ :: _, [], _, h1, _ => by simp [strLeAux] at h1
  | _ :: _, _ :: _, [], _, h2 => by simp [strLeAux] at h2
  | a :: as, b :: bs, c :: cs, h1, h2 => by
    simp only [strLeAux] at h1 h2 ⊢
    by_cases hab : a.toNat < b.toNat
    · by_cases hbc : b.toNat < c.toNat
      · simp [show a.toNat < c.toNat by omega]
      · by_cases hcb : c.toNat < b.toNat
        · rw [if_neg hbc, if_pos hcb] at h2
          exact absurd h2 (by simp)
        · simp [show a.toNat < c.toNat by omega]
    · by_cases hba : b.toNat < a.toNat
      · rw [if_neg hab, if_pos hba] at h1
        exact absurd h1 (by simp)
      · rw [if_neg hab, if_neg hba] at h1
        by_cases hbc : b.toNat < c.toNat
        · simp [show a.toNat < c.toNat by omega]
        · by_cases hcb : c.toNat < b.toNat
          · rw [if_neg hbc, if_pos hcb] at h2
            exact absurd h2 (by simp)
          · rw [if_neg hbc, if_neg hcb] at h2
            rw [if_neg (show ¬a.toNat < c.toNat by omega),
                if_neg (show ¬c.toNat < a.toNat by omega)]
            exact strLeAux_trans as bs cs h1 h2

instance : IsTotal LineRow lineStartLe :=
  ⟨fun a b => strLeAux_total a.start.toList b.start.toList⟩

instance : IsTrans LineRow lineStartLe :=
  ⟨fun a b c => strLeAux_trans a.start.toList b.start.toList c.start.toList⟩

theorem contextLines_spec (fts regexpFn : String → String → Bool) (db : DB)
    (q : QueryData) (tid : String) :
    (contextLines fts regexpFn db q tid).length ≤ 20 ∧
    (contextLines fts regexpFn db q tid).Pairwise
      (fun a b => strLe a.StartTime b.StartTime = true) := by
  constructor
  · simp only [contextLines, List.length_map]
    exact List.length_take_le _ _
  · simp only [contextLines]
    rw [List.pairwise_map]
    exact List.Pairwise.sublist (List.take_sublist _ _)
      (List.sorted_insertionSort lineStartLe _)

/-- C4: in every phrase-bearing document search, the context-line list of
each returned document holds at most 20 lines and is ordered by start_time
ascending. -/
theorem c4_contexts_sorted_bounded (fts regexpFn : String → String → Bool)
    (db : DB) (q : QueryData) (r : TranscriptSearch)
    (hs : q.SearchText ≠ "") (hr : r ∈ queryTranscripts fts regexpFn db q) :
    r.Contexts.length ≤ 20 ∧
    r.Contexts.Pairwise (fun a b => strLe a.StartTime b.StartTime = true) := by
  simp only [queryTranscripts] at hr
  have hr2 : r ∈ (List.insertionSort dateDescLe
      (if q.SearchText == "" then db.transcripts.filter (buildFilterQuery q)
       else (db.transcripts.filter (buildFilterQuery q)).filter fun t =>
         db.lines.any fun l =>
           l.tid == t.id && fts (buildFTSQuery q.SearchText) l.clean)).map fun t =>
      ({ ID := t.id, Streamer := t.streamer, Date := t.date, StreamType := t.streamType,
         Title := t.title,
         Contexts := if q.SearchText == "" then []
           else contextLines fts regexpFn db q t.id } : TranscriptSearch) := by
    split at hr
    · exact List.mem_of_mem_filter hr
    · exact hr
  obtain ⟨t, -, rfl⟩ := List.mem_map.mp hr2
  simp only
  rw [if_neg (by simp [hs])]
  exact contextLines_spec fts regexpFn db q t.id

/-- Witness for c4_contexts_sorted_bounded on the concrete sample search. -/
theorem c4_contexts_sorted_bounded_witness :
    sampleSearchResult.Contexts.length ≤ 20 ∧
    sampleSearchResult.Contexts.Pairwise
      (fun a b => strLe a.StartTime b.StartTime = true) :=
  c4_contexts_sorted_bounded alwaysTrue alwaysTrue sampleDB searchQuery
    sampleSearchResult (by decide) (by decide)

theorem rowTotal_cons (count : String → Nat) (r : String × String)
    (rest : List (String × String)) (k : String) :
    rowTotal count (r :: rest) k =
      (if r.1 = k then count r.2 else 0) + rowTotal count rest k := by
  by_cases h : r.1 = k <;> simp [rowTotal, List.filter_cons, h]

theorem lookupD_bump : ∀ (al : List (String × Nat)) (k : String) (c : Nat) (k1 : String),
    lookupD (bump al k c) k1 = lookupD al k1 + (if k = k1 then c else 0)
  | [], k, c, k1 => by by_cases h : k = k1 <;> simp [bump, lookupD, h]
  | (a, b) :: rest, k, c, k1 => by
    by_cases hak : a = k
    · subst hak
      by_cases hk1 : a = k1 <;> simp [bump, lookupD, hk1]
    · by_cases hk1 : a = k1
      · subst hk1
        have hka : ¬k = a := fun h => hak h.symm
        simp [bump, lookupD, hak, hka]
      · simp [bump, lookupD, hak, hk1, lookupD_bump rest k c k1]

theorem mem_keysOf_bump : ∀ (al : List (String × Nat)) (k : String) (c : Nat) (k1 : String),
    k1 ∈ keysOf (bump al k c) ↔ k1 ∈ keysOf al ∨ k1 = k
  | [], k, c, k1 => by simp [bump, keysOf]
  | (a, b) :: rest, k, c, k1 => by
    by_cases hak : a = k
    · simp [bump, keysOf, hak]
      tauto
    · have hb : bump ((a, b) :: rest) k c = (a, b) :: bump rest k c := by
        simp [bump, hak]
      rw [hb]
      rw [show keysOf ((a, b) :: bump rest k c) = a :: keysOf (bump rest k c) from rfl,
        show keysOf ((a, b) :: rest) = a :: keysOf rest from rfl]
      simp only [List.mem_cons]
      rw [mem_keysOf_bump rest k c k1]
      tauto

theorem nodup_keysOf_bump : ∀ (al : List (String × Nat)) (k : String) (c : Nat),
    (keysOf al).Nodup → (keysOf (bump al k c)).Nodup
  | [], k, c, _ => by simp [bump, keysOf]
  | (a, b) :: rest, k, c, h => by
    rw [show keysOf ((a, b) :: rest) = a :: keysOf rest from rfl] at h
    have h1 : a ∉ keysOf rest := (List.nodup_cons.mp h).1
    have h2 : (keysOf rest).Nodup := (List.nodup_cons.mp h).2
    by_cases hak : a = k
    · have hb : bump ((a, b) :: rest) k c = (a, b + c) :: rest := by simp [bump, hak]
      rw [hb, show keysOf ((a, b + c) :: rest) = a :: keysOf rest from rfl]
      exact List.nodup_cons.mpr ⟨h1, h2⟩
    · have hb : bump ((a, b) :: rest) k c = (a, b) :: bump rest k c := by simp [bump, hak]
      rw [hb, show keysOf ((a, b) :: bump rest k c) = a :: keysOf (bump rest k c) from rfl]
      refine List.nodup_cons.mpr ⟨?_, nodup_keysOf_bump rest k c h2⟩
      intro hmem
      rcases (mem_keysOf_bump rest k c a).mp hmem with hx | hx
      · exact h1 hx
      · exact hak hx

theorem lookupD_graphStep (count : String → Nat) (al : List (String × Nat))
    (r : String × String) (k : String) :
    lookupD (graphStep count al r) k =
      lookupD al k + (if r.1 = k then count r.2 else 0) := by
  simp only [graphStep]
  by_cases hc : 0 < count r.2
  · rw [if_pos hc, lookupD_bump]
  · rw [if_neg hc]
    have hz : count r.2 = 0 := by omega
    by_cases hk : r.1 = k <;> simp [hz, hk]

theorem lookupD_collect (count : String → Nat) :
    ∀ (rows : List (String × String)) (al : List (String × Nat)) (k : String),
    lookupD (rows.foldl (graphStep count) al) k = lookupD al k + rowTotal count rows k
  | [], al, k => by simp [rowTotal]
  | r :: rest, al, k => by
    rw [List.foldl_cons, lookupD_collect count rest (graphStep count al r) k,
      lookupD_graphStep, rowTotal_cons, Nat.add_assoc]

theorem mem_keysOf_graphStep (count : String → Nat) (al : List (String × Nat))
    (r : String × String) (k : String) :
    k ∈ keysOf (graphStep count al r) ↔
      k ∈ keysOf al ∨ (r.1 = k ∧ 0 < count r.2) := by
  simp only [graphStep]
  by_cases hc : 0 < count r.2
  · rw [if_pos hc, mem_keysOf_bump]
    constructor
    · rintro (h | h)
      · exact Or.inl h
      · exact Or.inr ⟨h.symm, hc⟩
    · rintro (h | h)
      · exact Or.inl h
      · exact Or.inr h.1.symm
  · rw [if_neg hc]
    constructor
    · exact Or.inl
    · rintro (h | h)
      · exact h
      · exact absurd h.2 hc

theorem mem_keysOf_collect (count : String → Nat) :
    ∀ (rows : List (String × String)) (al : List (String × Nat)) (k : String),
    k ∈ keysOf (rows.foldl (graphStep count) al) ↔
      k ∈ keysOf al ∨ ∃ r ∈ rows, r.1 = k ∧ 0 < count r.2
  | [], al, k => by simp
  | r :: rest, al, k => by
    rw [List.foldl_cons, mem_keysOf_collect count rest (graphStep count al r) k,
      mem_keysOf_graphStep]
    constructor
    · rintro ((h | h) | h)
      · exact Or.inl h
      · exact Or.inr ⟨r, List.mem_cons_self r rest, h⟩
      · obtain ⟨x, hx, hxp⟩ := h
        exact Or.inr ⟨x, List.mem_cons_of_mem r hx, hxp⟩
    · rintro (h | h)
      · exact Or.inl (Or.inl h)
      · obtain ⟨x, hx, hxp⟩ := h
        rcases List.mem_cons.mp hx with hx0 | hx1
        · subst hx0
          exact Or.inl (Or.inr hxp)
        · exact Or.inr ⟨x, hx1, hxp⟩

theorem nodup_keysOf_collect (count : String → Nat) :
    ∀ (rows : List (String × String)) (al : List (String × Nat)),
    (keysOf al).Nodup → (keysOf (rows.foldl (graphStep count) al)).Nodup
  | [], al, h => h
  | r :: rest, al, h => by
    rw [List.foldl_cons]
    refine nodup_keysOf_collect count rest (graphStep count al r) ?_
    simp only [graphStep]
    by_cases hc : 0 < count r.2
    · rw [if_pos hc]
      exact nodup_keysOf_bump al r.1 (count r.2) h
    · rwa [if_neg hc]

theorem pos_values_bump : ∀ (al : List (String × Nat)) (k : String) (c : Nat),
    (∀ p ∈ al, 0 < p.2) → 0 < c → ∀ p ∈ bump al k c, 0 < p.2
  | [], k, c, _, hc, p, hp => by
    simp only [bump, List.mem_singleton] at hp
    simpa [hp]
  | (a, b) :: rest, k, c, hal, hc, p, hp => by
    by_cases hak : a = k
    · rw [show bump ((a, b) :: rest) k c = (a, b + c) :: rest from by simp [bump, hak]] at hp
      rcases List.mem_cons.mp hp with h | h
      · subst h
        have := hal (a, b) (List.mem_cons_self _ _)
        simp only
        omega
      · exact hal p (List.mem_cons_of_mem _ h)
    · rw [show bump ((a, b) :: rest) k c = (a, b) :: bump rest k c from by
        simp [bump, hak]] at hp
      rcases List.mem_cons.mp hp with h | h
      · subst h
        exact hal (a, b) (List.mem_cons_self _ _)
      · exact pos_values_bump rest k c (fun x hx => hal x (List.mem_cons_of_mem _ hx)) hc p h

theorem pos_values_collect (count : String → Nat) :
    ∀ (rows : List (String × String)) (al : List (String × Nat)),
    (∀ p ∈ al, 0 < p.2) → ∀ p ∈ rows.foldl (graphStep count) al, 0 < p.2
  | [], al, hal, p, hp => hal p hp
  | r :: rest, al, hal, p, hp => by
    rw [List.foldl_cons] at hp
    refine pos_values_collect count rest (graphStep count al r) ?_ p hp
    simp only [graphStep]
    by_cases hc : 0 < count r.2
    · rw [if_pos hc]
      exact pos_values_bump al r.1 (count r.2) hal hc
    · rwa [if_neg hc]

theorem mem_of_lookupD : ∀ (al : List (String × Nat)) (k : String) (c : Nat),
    k ∈ keysOf al → lookupD al k = c → (k, c) ∈ al
  | [], k, c, hk, _ => by simp [keysOf] at hk
  | (a, b) :: rest, k, c, hk, hl => by
    by_cases hak : a = k
    · subst hak
      have : b = c := by simpa [lookupD] using hl
      subst this
      exact List.mem_cons_self _ _
    · have hk1 : k ∈ keysOf rest := by
        rw [show keysOf ((a, b) :: rest) = a :: keysOf rest from rfl] at hk
        rcases List.mem_cons.mp hk with h | h
        · exact absurd h.symm hak
        · exact h
      have hl1 : lookupD rest k = c := by simpa [lookupD, hak] using hl
      exact List.mem_cons_of_mem _ (mem_of_lookupD rest k c hk1 hl1)

theorem lookupD_of_mem : ∀ (al : List (String × Nat)) (k : String) (c : Nat),
    (keysOf al).Nodup → (k, c) ∈ al → lookupD al k = c
  | [], k, c, _, h => by simp at h
  | (a, b) :: rest, k, c, hnd, h => by
    rw [show keysOf ((a, b) :: rest) = a :: keysOf rest from rfl] at hnd
    rcases List.mem_cons.mp h with h0 | h1
    · rw [show (a, b) = (k, c) from h0.symm]
      simp [lookupD]
    · have hka : ¬a = k := by
        intro he
        subst he
        exact (List.nodup_cons.mp hnd).1 (List.mem_map_of_mem Prod.fst h1)
      rw [show lookupD ((a, b) :: rest) k = lookupD rest k from by simp [lookupD, hka]]
      exact lookupD_of_mem rest k c (List.nodup_cons.mp hnd).2 h1

theorem rowTotal_pos_iff (count : String → Nat) :
    ∀ (rows : List (String × String)) (k : String),
    0 < rowTotal count rows k ↔ ∃ r ∈ rows, r.1 = k ∧ 0 < count r.2
  | [], k => by simp [rowTotal]
  | r :: rest, k => by
    rw [rowTotal_cons]
    constructor
    · intro h
      by_cases hk : r.1 = k
      · rw [if_pos hk] at h
        by_cases hc : 0 < count r.2
        · exact ⟨r, List.mem_cons_self _ _, hk, hc⟩
        · have : count r.2 = 0 := by omega
          rw [this, Nat.zero_add] at h
          obtain ⟨x, hx, hxp⟩ := (rowTotal_pos_iff count rest k).mp h
          exact ⟨x, List.mem_cons_of_mem _ hx, hxp⟩
      · rw [if_neg hk, Nat.zero_add] at h
        obtain ⟨x, hx, hxp⟩ := (rowTotal_pos_iff count rest k).mp h
        exact ⟨x, List.mem_cons_of_mem _ hx, hxp⟩
    · rintro ⟨x, hx, hxk, hxp⟩
      rcases List.mem_cons.mp hx with h0 | h1
      · subst h0
        rw [if_pos hxk]
        omega
      · have := (rowTotal_pos_iff count rest k).mpr ⟨x, h1, hxk, hxp⟩
        omega

/-- Characterization of the aggregation loop: a (key, value) pair is in the
final count map exactly when the value is the total count of the rows
carrying that key and that total is positive. -/
theorem collectCounts_char (count : String → Nat) (rows : List (String × String))
    (k : String) (c : Nat) :
    (k, c) ∈ collectCounts count rows ↔ (rowTotal count rows k = c ∧ 0 < c) := by
  have hnd : (keysOf (collectCounts count rows)).Nodup :=
    nodup_keysOf_collect count rows [] (by simp [keysOf])
  have hlook : lookupD (collectCounts count rows) k = rowTotal count rows k := by
    simpa [lookupD] using lookupD_collect count rows [] k
  have hkeys : k ∈ keysOf (collectCounts count rows) ↔
      ∃ r ∈ rows, r.1 = k ∧ 0 < count r.2 := by
    simpa [keysOf] using mem_keysOf_collect count rows [] k
  constructor
  · intro h
    have hc := lookupD_of_mem _ k c hnd h
    have hk : k ∈ keysOf (collectCounts count rows) := List.mem_map_of_mem Prod.fst h
    have hpos : 0 < rowTotal count rows k :=
      (rowTotal_pos_iff count rows k).mpr (hkeys.mp hk)
    rw [hlook] at hc
    exact ⟨hc, hc ▸ hpos⟩
  · rintro ⟨htot, hpos⟩
    have hk : k ∈ keysOf (collectCounts count rows) :=
      hkeys.mpr ((rowTotal_pos_iff count rows k).mp (htot ▸ hpos))
    exact mem_of_lookupD _ k c hk (by rw [hlook, htot])

instance : IsTotal GraphDataPoint pointLe :=
  ⟨fun a b => strLeAux_total a.X.toList b.X.toList⟩

instance : IsTrans GraphDataPoint pointLe :=
  ⟨fun a b c => strLeAux_trans a.X.toList b.X.toList c.X.toList⟩

theorem pairwise_le_ne_of_nodup :
    ∀ l : List GraphDataPoint, l.Pairwise pointLe → (l.map fun p => p.X).Nodup →
      l.Pairwise fun a b => strLe a.X b.X = true ∧ a.X ≠ b.X
  | [], _, _ => List.Pairwise.nil
  | a :: l, hp, hn => by
    rw [List.pairwise_cons] at hp
    rw [List.map_cons, List.nodup_cons] at hn
    refine List.Pairwise.cons ?_ (pairwise_le_ne_of_nodup l hp.2 hn.2)
    intro b hb
    refine ⟨hp.1 b hb, ?_⟩
    intro he
    exact hn.1 (he ▸ List.mem_map_of_mem (fun p => p.X) hb)

theorem rowTotal_map_pairs (count : String → Nat) (ls : List LineRow) (t : String) :
    rowTotal count ((List.insertionSort lineStartLe ls).map fun l => (l.start, l.clean)) t =
      ((ls.filter fun l => l.start == t).map fun l => count l.clean).sum := by
  unfold rowTotal
  rw [List.filter_map, List.map_map]
  exact List.Perm.sum_eq
    (List.Perm.map _ (List.Perm.filter _ (List.perm_insertionSort lineStartLe ls)))

/-- C5: the single-document time series is strictly ascending in its
timestamps, and a point (t, c) appears exactly when c is the total number
of regex matches (pattern getRegexPattern of the phrase and whole-word
flag, counted per line in the line's clean text) over the FTS-matching
lines of the document whose start_time is t, and that total is positive —
so lines sharing a timestamp sum together and each emitted timestamp had at
least one occurrence. -/
theorem c5_single_graph_points (fts : String → String → Bool)
    (reCount : String → String → Nat) (db : DB) (id : String) (q : QueryData) :
    (querySingleGraph fts reCount db id q).Pairwise
      (fun a b => strLe a.X b.X = true ∧ a.X ≠ b.X) ∧
    ∀ (t : String) (c : Nat),
      ({ X := t, Y := c } : GraphDataPoint) ∈ querySingleGraph fts reCount db id q ↔
      (((((db.lines.filter fun l =>
              l.tid == id && fts (buildFTSQuery q.SearchText) l.clean).filter
            fun l => l.start == t).map
          fun l => reCount (getRegexPattern q.SearchText q.MatchWholeWord) l.clean).sum = c)
        ∧ 0 < c) := by
  constructor
  · refine pairwise_le_ne_of_nodup _ (List.sorted_insertionSort pointLe _) ?_
    have hperm :
        List.Perm ((querySingleGraph fts reCount db id q).map (fun p => p.X))
          (((collectCounts (reCount (getRegexPattern q.SearchText q.MatchWholeWord))
              ((List.insertionSort lineStartLe (db.lines.filter fun l =>
                l.tid == id && fts (buildFTSQuery q.SearchText) l.clean)).map
                fun l => (l.start, l.clean))).map
            (fun p => ({ X := p.1, Y := p.2 } : GraphDataPoint))).map (fun p => p.X)) :=
      List.Perm.map _ (List.perm_insertionSort pointLe _)
    rw [(List.Perm.nodup_iff hperm)]
    rw [List.map_map]
    exact nodup_keysOf_collect _ _ [] (by simp [keysOf])
  · intro t c
    simp only [querySingleGraph, List.mem_insertionSort, List.mem_map]
    have hmm : (∃ p ∈ collectCounts (reCount (getRegexPattern q.SearchText q.MatchWholeWord))
          ((List.insertionSort lineStartLe (db.lines.filter fun l =>
            l.tid == id && fts (buildFTSQuery q.SearchText) l.clean)).map
            fun l => (l.start, l.clean)),
          ({ X := p.1, Y := p.2 } : GraphDataPoint) = { X := t, Y := c }) ↔
        (t, c) ∈ collectCounts (reCount (getRegexPattern q.SearchText q.MatchWholeWord))
          ((List.insertionSort lineStartLe (db.lines.filter fun l =>
            l.tid == id && fts (buildFTSQuery q.SearchText) l.clean)).map
            fun l => (l.start, l.clean)) := by
      constructor
      · rintro ⟨⟨x, y⟩, hmem, heq⟩
        simp only [GraphDataPoint.mk.injEq] at heq
        rw [show (t, c) = (x, y) from by simp [heq.1, heq.2]]
        exact hmem
      · intro h
        exact ⟨(t, c), h, rfl⟩
    rw [hmm, collectCounts_char, rowTotal_map_pairs]

/-- C10: every point of the single-document series and of the corpus-wide
date series has a strictly positive count: a key is entered into the
aggregation map only together with a positive match count, so a line that
full-text-matches but yields zero regex occurrences contributes nothing. -/
theorem c10_graph_counts_positive (fts : String → String → Bool)
    (reCount : String → String → Nat) (db : DB) (id : String) (q : QueryData) :
    (∀ p ∈ querySingleGraph fts reCount db id q, 0 < p.Y) ∧
    (∀ p ∈ queryAllGraphs fts reCount db q, 0 < p.Y) := by
  constructor
  · intro p hp
    simp only [querySingleGraph, List.mem_insertionSort, List.mem_map] at hp
    obtain ⟨x, hx, rfl⟩ := hp
    exact pos_values_collect _ _ [] (by simp) x hx
  · intro p hp
    simp only [queryAllGraphs, List.mem_insertionSort, List.mem_map] at hp
    obtain ⟨x, hx, rfl⟩ := hp
    exact pos_values_collect _ _ [] (by simp) x hx

/-- Witness for c10_graph_counts_positive: the first point of the sample
single-document series, which aggregates one match at 00:00:01. -/
theorem c10_graph_counts_positive_witness :
    ({ X := "00:00:01", Y := 1 } : GraphDataPoint) ∈
        querySingleGraph alwaysTrue countOne sampleDB "v1" searchQuery ∧
      0 < ({ X := "00:00:01", Y := 1 } : GraphDataPoint).Y :=
  ⟨by decide,
    (c10_graph_counts_positive alwaysTrue countOne sampleDB "v1" searchQuery).1
      { X := "00:00:01", Y := 1 } (by decide)⟩

